import Mathlib

/-!
Verification development for the `webfront` HTTP router.

The program is an HTTP server / reverse proxy driven by a JSON rule file.
We shallowly embed its core (the rule table, host matching, handler
resolution, rule loading, and the certificate host policy) as pure Lean
functions, modelling Go strings as `List Char`, `time.Time` values as `Int`,
Go `error` results as `Option`/`Except`, and the filesystem visible to one
`loadRules` call as an explicit input value.
-/

namespace Webfront

/-- The handler value built by `makeHandler`: either the reverse proxy for a
`Forward` upstream (an `httputil.ReverseProxy` whose director rewrites the
target authority), or a file server rooted at a `Serve` directory.  The
actual network/disk behaviour is external to the core, so the handler is
represented by its constructor data. -/
inductive HandlerKind where
  | reverseProxy (upstream : List Char)
  | fileServer (dir : List Char)
deriving DecidableEq, Repr

/-- Embeds the Go struct `Rule`: `Host`, `Forward`, `Serve` come from the
JSON rule file; `handler` is the unexported field filled in by `parseRules`
(`nil` just after decoding, hence the `none` default). -/
structure Rule where
  Host : List Char
  Forward : List Char
  Serve : List Char
  handler : Option HandlerKind := none
deriving DecidableEq, Repr

/-- Embeds `makeHandler`: a non-empty `Forward` gives the reverse proxy, an
otherwise non-empty `Serve` gives the file server, and a rule with neither
gets no handler (`nil` in Go). -/
def makeHandler (r : Rule) : Option HandlerKind :=
  if r.Forward ≠ [] then some (HandlerKind.reverseProxy r.Forward)
  else if r.Serve ≠ [] then some (HandlerKind.fileServer r.Serve)
  else none

/-- Embeds the loop of `parseRules` that runs after a successful JSON
decode: every decoded rule gets `r.handler = makeHandler(r)` (rules whose
handler comes out `nil` are logged as bad but kept). -/
def resolveRules (rs : List Rule) : List Rule :=
  rs.map (fun r => { r with handler := makeHandler r })

/-- Embeds the match test of `Server.handler`:
`h == r.Host || strings.HasSuffix(h, "."+r.Host)`. -/
def ruleMatch (h : List Char) (pat : List Char) : Bool :=
  h == pat || List.isSuffixOf ('.' :: pat) h

/-- Embeds the port-stripping step of `Server.handler`: Go computes
`i := strings.Index(h, ":")` and truncates to `h[:i]` when `i >= 0`, i.e.
keeps the part of the host before its first `':'` (all of it when there is
none). -/
def stripPort : List Char → List Char
  | [] => []
  | c :: cs => if c == ':' then [] else c :: stripPort cs

/-- Embeds the scan loop of `Server.handler` over `s.rules`: the first rule
whose `Host` matches returns its `handler` field (which may itself be `nil`
for an inert rule); falling off the end returns `nil`. -/
def lookupRules : List Rule → List Char → Option HandlerKind
  | [], _ => none
  | r :: rs, h => if ruleMatch h r.Host then r.handler else lookupRules rs h

/-- Embeds `Server.handler` in full: strip the port from the request host,
then scan the rule table in order. -/
def serverHandler (rules : List Rule) (reqHost : List Char) : Option HandlerKind :=
  lookupRules rules (stripPort reqHost)

/-- Embeds the mutable fields of the Go `Server` guarded by `mu`:
`last` (the recorded modification time) and `rules` (the current table,
`none` standing for the `nil` slice a fresh `Server` starts with). -/
structure ServerState where
  last : Int
  rules : Option (List Rule)
deriving DecidableEq, Repr

/-- Embeds `new(Server)`: zero time, `nil` rule slice. -/
def initialServer : ServerState := { last := 0, rules := none }

/-- The outcome `ServeHTTP` produces: dispatch to the matched rule's
handler, or the fixed `"Not found."` 404 response. -/
inductive Response where
  | handled (h : HandlerKind)
  | notFound
deriving DecidableEq, Repr

/-- Embeds `Server.ServeHTTP`: ask `Server.handler` for a handler and invoke
it, else answer not-found.  The dispatch path only reads the server state,
so the state is returned alongside the response. -/
def serveHTTP (s : ServerState) (reqHost : List Char) : ServerState × Response :=
  match serverHandler (s.rules.getD []) reqHost with
  | some h => (s, Response.handled h)
  | none => (s, Response.notFound)

/-- The error cases a single `loadRules` call can surface: `os.Stat`
failing, or `parseRules` failing (open or JSON decode). -/
inductive LoadError where
  | statFailed
  | parseFailed
deriving DecidableEq, Repr

/-- The rule file as one `loadRules` call observes it: either `os.Stat`
fails, or the file exists with a modification time and a content that
either decodes to a rule list or fails to open/decode. -/
inductive RuleFile where
  | statError
  | file (mtime : Int) (content : Option (List Rule))
deriving DecidableEq, Repr

/-- Embeds `parseRules`: open + decode (an `Option (List Rule)` here), then
resolve every rule's handler. -/
def parseRules (content : Option (List Rule)) : Except LoadError (List Rule) :=
  match content with
  | none => Except.error LoadError.parseFailed
  | some rs => Except.ok (resolveRules rs)

/-- Embeds `Server.loadRules`: stat the file; if
`!mtime.After(s.last) && s.rules != nil` report no change without touching
the file content; otherwise parse and, on success, install the new table
and modification time.  The returned `Option LoadError` is the Go `error`
(`none` = `nil`). -/
def loadRules (s : ServerState) (f : RuleFile) : ServerState × Option LoadError :=
  match f with
  | RuleFile.statError => (s, some LoadError.statFailed)
  | RuleFile.file mtime content =>
    if ¬ s.last < mtime ∧ s.rules ≠ none then
      (s, none)
    else
      match parseRules content with
      | Except.error e => (s, some e)
      | Except.ok rules => ({ last := mtime, rules := some rules }, none)

/-- Embeds `NewServer`: construct a fresh server, run the mandatory first
`loadRules`, and propagate its error (returning no server) when it fails;
only on success is the server returned (at which point the Go code starts
the `refreshRules` goroutine). -/
def NewServer (f : RuleFile) : Except LoadError ServerState :=
  match loadRules initialServer f with
  | (_, some e) => Except.error e
  | (s, none) => Except.ok s

/-- What `Server.hostPolicy` answers: `nil` (allowed) or the
`unrecognized host %q` error carrying the offending host. -/
inductive PolicyResult where
  | allowed
  | unrecognizedHost (host : List Char)
deriving DecidableEq, Repr

/-- Embeds the loop of `Server.hostPolicy` over `s.rules`:
`host == rule.Host || host == "www."+rule.Host` allows, otherwise the scan
continues and the fall-through denies with the unrecognized-host error. -/
def hostPolicy : List Rule → List Char → PolicyResult
  | [], host => PolicyResult.unrecognizedHost host
  | r :: rs, host =>
    if host == r.Host || host == "www.".toList ++ r.Host then PolicyResult.allowed
    else hostPolicy rs host

/-! Helper lemmas -/

/-- The scan loop of `Server.handler` returns the `handler` field of the
first rule (in table order) whose host pattern matches, and `none` when no
rule matches. -/
theorem lookupRules_eq_find? (rules : List Rule) (h : List Char) :
    lookupRules rules h =
      (List.find? (fun r => ruleMatch h r.Host) rules).bind (fun r => r.handler) := by
  induction rules with
  | nil => rfl
  | cons r rs ih =>
    cases hm : ruleMatch h r.Host <;>
      simp [lookupRules, List.find?_cons, hm, ih]

/-- Truncating at the first `':'` ignores everything from a `':'` on. -/
theorem stripPort_append_colon (h p : List Char) :
    stripPort (h ++ ':' :: p) = stripPort h := by
  induction h with
  | nil => simp [stripPort]
  | cons c cs ih =>
    by_cases hc : c = ':'
    · simp [stripPort, hc]
    · simp [stripPort, hc, ih]

/-! Claims -/

/-- Claim C1: a rule with `Host = H` matches a normalized host `h` exactly when
`h = H` or `h` ends with `"." + H`; in particular `evilexample.com`, which
ends in `example.com` without a dot boundary, does not match a rule for
`example.com`. -/
theorem ruleMatch_dot_boundary :
    (∀ h H : List Char, ruleMatch h H = true ↔ (h = H ∨ ∃ x, h = x ++ ('.' :: H)))
    ∧ ruleMatch ("evilexample.com".toList) ("example.com".toList) = false := by
  constructor
  · intro h H
    simp only [ruleMatch, Bool.or_eq_true, beq_iff_eq, List.isSuffixOf_iff_suffix]
    constructor
    · rintro (rfl | ⟨x, hx⟩)
      · exact Or.inl rfl
      · exact Or.inr ⟨x, hx.symm⟩
    · rintro (rfl | ⟨x, hx⟩)
      · exact Or.inl rfl
      · exact Or.inr ⟨x, hx.symm⟩
  · decide

/-- Claim C2: routing returns the `handler` field of the first rule in table
order whose host pattern matches — an inert first match (handler `none`)
yields no handler rather than falling through (shown concretely on a table
whose inert first rule shadows a forwarding second rule for the same host)
— and `ServeHTTP` answers not-found exactly when no handler came back. -/
theorem route_first_match_no_fallthrough :
    (∀ (rules : List Rule) (h : List Char),
      lookupRules rules h =
        (List.find? (fun r => ruleMatch h r.Host) rules).bind (fun r => r.handler))
    ∧ lookupRules
        (resolveRules
          [{ Host := "example.com".toList, Forward := [], Serve := [] },
           { Host := "example.com".toList, Forward := "localhost:8080".toList, Serve := [] }])
        "example.com".toList = none
    ∧ (∀ (s : ServerState) (reqHost : List Char),
        (serveHTTP s reqHost).2 = Response.notFound ↔
          serverHandler (s.rules.getD []) reqHost = none) := by
  refine ⟨lookupRules_eq_find?, by decide, ?_⟩
  intro s reqHost
  unfold serveHTTP
  cases serverHandler (s.rules.getD []) reqHost <;> simp

/-- Claim C3: a request host carrying a port (`h ++ ":" ++ port`) routes exactly
as the bare host `h` does: the router truncates at the port delimiter
before matching. -/
theorem route_strips_port (rules : List Rule) (h p : List Char) :
    serverHandler rules (h ++ ':' :: p) = serverHandler rules h := by
  unfold serverHandler
  rw [stripPort_append_colon]

/-- Claim C4: when the file's modification time is not strictly after the
recorded load time and a table already exists, `loadRules` reports no
change and no error, leaving the state untouched — for any file content
whatsoever, i.e. without re-parsing. -/
theorem loadRules_unchanged_skip (s : ServerState) (mtime : Int)
    (content : Option (List Rule)) (rs : List Rule)
    (hle : mtime ≤ s.last) (hrules : s.rules = some rs) :
    loadRules s (RuleFile.file mtime content) = (s, none) := by
  simp only [loadRules]
  rw [if_pos ⟨not_lt.mpr hle, by simp [hrules]⟩]

/-- Witness for claim C4: a file with modification time equal to the recorded time
(and even unparseable content) is skipped, the table staying in place. -/
theorem loadRules_unchanged_skip_witness :
    loadRules { last := 5, rules := some [] } (RuleFile.file 5 none)
      = ({ last := 5, rules := some [] }, none) :=
  loadRules_unchanged_skip { last := 5, rules := some [] } 5 none []
    (by decide) rfl

/-- Claim C5: a `loadRules` call that returns an error leaves the server state
exactly as it was, so routing after the failed load answers as before. -/
theorem loadRules_error_preserves_state (s : ServerState) (f : RuleFile)
    (s' : ServerState) (e : LoadError)
    (hload : loadRules s f = (s', some e)) :
    s' = s ∧ ∀ host : List Char, serveHTTP s' host = serveHTTP s host := by
  have hs : s' = s := by
    cases f with
    | statError =>
      simp only [loadRules, Prod.mk.injEq] at hload
      exact hload.1.symm
    | file mtime content =>
      by_cases hc : ¬ s.last < mtime ∧ s.rules ≠ none
      · rw [loadRules, if_pos hc] at hload
        simp at hload
      · rw [loadRules, if_neg hc] at hload
        cases content with
        | none =>
          simp only [parseRules, Prod.mk.injEq] at hload
          exact hload.1.symm
        | some rs => simp [parseRules] at hload
  exact ⟨hs, fun host => by rw [hs]⟩

/-- Witness for claim C5: a reload that sees a newer but malformed file
fails with the parse error while a server holding an installed forwarding
table keeps its state and routing untouched. -/
theorem loadRules_error_preserves_state_witness :
    ({ last := 3,
       rules := some (resolveRules
         [{ Host := "example.com".toList, Forward := "localhost:8080".toList,
            Serve := [] }]) } : ServerState)
      = { last := 3,
          rules := some (resolveRules
            [{ Host := "example.com".toList, Forward := "localhost:8080".toList,
               Serve := [] }]) }
    ∧ ∀ host : List Char,
        serveHTTP
          { last := 3,
            rules := some (resolveRules
              [{ Host := "example.com".toList, Forward := "localhost:8080".toList,
                 Serve := [] }]) } host
        = serveHTTP
            { last := 3,
              rules := some (resolveRules
                [{ Host := "example.com".toList, Forward := "localhost:8080".toList,
                   Serve := [] }]) } host :=
  loadRules_error_preserves_state _ (RuleFile.file 7 none) _ LoadError.parseFailed rfl

/-- Claim C6: dispatch is a pure read — `ServeHTTP` returns the state it was
given — and the handler it hands back is exactly the one `makeHandler`
resolved at load time for the first matching rule: the request path never
builds or rebuilds a handler. -/
theorem dispatch_reads_only_load_time_handlers :
    (∀ (s : ServerState) (reqHost : List Char), (serveHTTP s reqHost).1 = s)
    ∧ (∀ (rs : List Rule) (h : List Char),
        lookupRules (resolveRules rs) h =
          (List.find? (fun r => ruleMatch h r.Host) rs).bind makeHandler) := by
  constructor
  · intro s reqHost
    unfold serveHTTP
    cases serverHandler (s.rules.getD []) reqHost <;> rfl
  · intro rs h
    induction rs with
    | nil => rfl
    | cons r rest ih =>
      cases hm : ruleMatch h r.Host
      · simpa [resolveRules, lookupRules, List.find?_cons, hm] using ih
      · simp [resolveRules, lookupRules, List.find?_cons, hm]

/-- Claim C7: handler resolution checks `Forward` before `Serve`: a rule with
both set resolves to the forwarding (reverse proxy) handler. -/
theorem makeHandler_forward_precedence (r : Rule)
    (hf : r.Forward ≠ []) (_hs : r.Serve ≠ []) :
    makeHandler r = some (HandlerKind.reverseProxy r.Forward) := by
  unfold makeHandler
  rw [if_pos hf]

/-- Witness for claim C7: a rule forwarding to `localhost:8080` and also serving
`/var/www` resolves to the reverse proxy. -/
theorem makeHandler_forward_precedence_witness :
    makeHandler
      { Host := "example.com".toList, Forward := "localhost:8080".toList,
        Serve := "/var/www".toList }
      = some (HandlerKind.reverseProxy ("localhost:8080".toList)) :=
  makeHandler_forward_precedence
    { Host := "example.com".toList, Forward := "localhost:8080".toList,
      Serve := "/var/www".toList }
    (by decide) (by decide)

/-- Claim C8: the host policy allows a hostname exactly when some rule's `Host`
equals it, or it equals `"www." + Host`; every other hostname is denied
with the unrecognized-host error carrying that hostname. -/
theorem hostPolicy_allows_exact_or_www (rules : List Rule) (host : List Char) :
    (hostPolicy rules host = PolicyResult.allowed ↔
      ∃ r ∈ rules, host = r.Host ∨ host = "www.".toList ++ r.Host)
    ∧ (hostPolicy rules host = PolicyResult.allowed
        ∨ hostPolicy rules host = PolicyResult.unrecognizedHost host) := by
  induction rules with
  | nil => simp [hostPolicy]
  | cons r rs ih =>
    by_cases hc : (host == r.Host || host == "www.".toList ++ r.Host) = true
    · simp only [beq_iff_eq, Bool.or_eq_true] at hc
      constructor
      · simp only [hostPolicy, beq_iff_eq]
        rw [if_pos (by simpa using hc)]
        simp only [true_iff]
        exact ⟨r, List.mem_cons_self r rs, hc⟩
      · left
        simp only [hostPolicy]
        rw [if_pos (by simpa using hc)]
    · have hstep : hostPolicy (r :: rs) host = hostPolicy rs host := by
        simp only [hostPolicy]
        rw [if_neg (by simpa using hc)]
      simp only [beq_iff_eq, Bool.or_eq_true, not_or] at hc
      constructor
      · rw [hstep, ih.1]
        constructor
        · rintro ⟨r', hr', hor⟩
          exact ⟨r', List.mem_cons_of_mem r hr', hor⟩
        · rintro ⟨r', hr', hor⟩
          rcases List.mem_cons.mp hr' with rfl | hmem
          · exact absurd hor (by simpa using hc)
          · exact ⟨r', hmem, hor⟩
      · rw [hstep]
        exact ih.2

/-- Claim C9: `NewServer` propagates a failing first load as an error, producing
no server; a server is produced only when the first load succeeded, and it
then holds an installed rule table. -/
theorem newServer_first_load (f : RuleFile) :
    (∀ e, (loadRules initialServer f).2 = some e → NewServer f = Except.error e)
    ∧ (∀ s, NewServer f = Except.ok s →
        loadRules initialServer f = (s, none) ∧ ∃ rs, s.rules = some rs) := by
  constructor
  · intro e he
    unfold NewServer
    rcases hl : loadRules initialServer f with ⟨s', r⟩
    rw [hl] at he
    cases r with
    | none => simp at he
    | some e' =>
      simp only at he
      rw [he]
  · intro s hs
    unfold NewServer at hs
    rcases hl : loadRules initialServer f with ⟨s', r⟩
    rw [hl] at hs
    cases r with
    | some e => simp at hs
    | none =>
      simp only [Except.ok.injEq] at hs
      subst hs
      refine ⟨rfl, ?_⟩
      cases f with
      | statError => simp [loadRules] at hl
      | file mtime content =>
        simp only [loadRules] at hl
        rw [if_neg (by simp [initialServer])] at hl
        cases content with
        | none => simp [parseRules] at hl
        | some rs =>
          simp only [parseRules, Prod.mk.injEq] at hl
          rw [← hl.1]
          exact ⟨resolveRules rs, rfl⟩

/-- Witness for claim C9: a first load whose stat fails makes `NewServer` fail, and a
first load of a file with an (empty) rule list yields a server holding an
installed table. -/
theorem newServer_first_load_witness :
    NewServer RuleFile.statError = Except.error LoadError.statFailed
    ∧ (loadRules initialServer (RuleFile.file 1 (some []))
        = ({ last := 1, rules := some [] }, none)
      ∧ ∃ rs, ({ last := 1, rules := some [] } : ServerState).rules = some rs) :=
  ⟨(newServer_first_load RuleFile.statError).1 LoadError.statFailed rfl,
   (newServer_first_load (RuleFile.file 1 (some []))).2
     { last := 1, rules := some [] } rfl⟩

/-- Claim C10: a bare leading dot makes a subdomain match: for every rule host
`H`, the inbound host `"." + H` matches, the suffix test demanding no
non-empty label before the dot (shown concretely on `.example.com`
against a rule for `example.com`). -/
theorem ruleMatch_bare_leading_dot :
    (∀ H : List Char, ruleMatch ('.' :: H) H = true)
    ∧ ruleMatch (".example.com".toList) ("example.com".toList) = true := by
  constructor
  · intro H
    simp only [ruleMatch, Bool.or_eq_true, List.isSuffixOf_iff_suffix]
    exact Or.inr (List.suffix_refl _)
  · decide

end Webfront
